import Mathlib

/-!
# fbcash (libethash): difficulty comparison, size constants, light/full equivalence

A shallow embedding of `src/libethash/fbcash.h` and `src/libethash/internal.h`.

* `fbcash_h256_t`, `fbcash_h256_get`, `fbcash_check_difficulty` and the `FBCASH_*`
  constants are transcribed from the two headers.
* The DAG item derivation, the dataset fill and the hashimoto loop are only
  *declared* in the headers; their bodies are modelled from the specification and
  marked as such.
* The sizing functions `fbcash_get_datasize` and `fbcash_get_cachesize` are also only
  declared; they are not modelled here.
-/

namespace Fbcash

/-! ## Constants of `fbcash.h` -/

/-- Header line `#define FBCASH_DATASET_BYTES_INIT 1073741824U // 2**30`. -/
def FBCASH_DATASET_BYTES_INIT : Nat := 1073741824
/-- Header line `#define FBCASH_DATASET_BYTES_GROWTH 8388608U  // 2**23`. -/
def FBCASH_DATASET_BYTES_GROWTH : Nat := 8388608
/-- Header line `#define FBCASH_CACHE_BYTES_INIT 1073741824U // 2**24`: the value is the
literal of the header, which is not the power of two of its comment. -/
def FBCASH_CACHE_BYTES_INIT : Nat := 1073741824
/-- Header line `#define FBCASH_CACHE_BYTES_GROWTH 131072U  // 2**17`. -/
def FBCASH_CACHE_BYTES_GROWTH : Nat := 131072
/-- Header line `#define FBCASH_EPOCH_LENGTH 30000U`. -/
def FBCASH_EPOCH_LENGTH : Nat := 30000
/-- Header line `#define FBCASH_MIX_BYTES 128`. -/
def FBCASH_MIX_BYTES : Nat := 128
/-- Header line `#define FBCASH_HASH_BYTES 64`. -/
def FBCASH_HASH_BYTES : Nat := 64
/-- Header line `#define FBCASH_DATASET_PARENTS 256`. -/
def FBCASH_DATASET_PARENTS : Nat := 256
/-- Header line `#define FBCASH_ACCESSES 64`. -/
def FBCASH_ACCESSES : Nat := 64

/-- Header line `#define NODE_WORDS (64/4)`. -/
def NODE_WORDS : Nat := 64 / 4
/-- Header line `#define MIX_WORDS (FBCASH_MIX_BYTES/4)`. -/
def MIX_WORDS : Nat := FBCASH_MIX_BYTES / 4
/-- Header line `#define MIX_NODES (MIX_WORDS / NODE_WORDS)`. -/
def MIX_NODES : Nat := MIX_WORDS / NODE_WORDS

/-! ## 256-bit hashes and the difficulty check (`internal.h`) -/

/-- The type `uint8_t`. -/
abbrev uint8_t := Fin 256

/-- The type `typedef struct fbcash_h256 { uint8_t b[32]; } fbcash_h256_t;`. -/
structure fbcash_h256_t where
  b : Fin 32 → uint8_t
deriving DecidableEq

/-- Function `fbcash_h256_get`: `return hash->b[i];` (the index is in range at every
call of the difficulty check). -/
def fbcash_h256_get (hash : fbcash_h256_t) (i : Fin 32) : uint8_t :=
  hash.b i

/-- The loop of `fbcash_check_difficulty`, started at index `i`:
`for (; i < 32; i++) { if (get(hash,i) == get(boundary,i)) continue;
return get(hash,i) < get(boundary,i); } return true;`.
The first argument bounds the number of iterations; with `32 - i` or more it is
never exhausted before the loop condition `i < 32` fails. -/
def check_difficulty_loop (hash boundary : fbcash_h256_t) : Nat → Nat → Bool
  | 0, _ => true
  | fuel + 1, i =>
    if h : i < 32 then
      if fbcash_h256_get hash ⟨i, h⟩ = fbcash_h256_get boundary ⟨i, h⟩ then
        check_difficulty_loop hash boundary fuel (i + 1)
      else
        decide (fbcash_h256_get hash ⟨i, h⟩ < fbcash_h256_get boundary ⟨i, h⟩)
    else
      true

/-- Function `fbcash_check_difficulty(hash, boundary)`: the loop from `i = 0`. -/
def fbcash_check_difficulty (hash boundary : fbcash_h256_t) : Bool :=
  check_difficulty_loop hash boundary 32 0

/-- Value of a byte string read as a big-endian unsigned integer: the head is the
most significant byte. -/
def be_value : List uint8_t → Nat
  | [] => 0
  | x :: xs => x.val * 256 ^ xs.length + be_value xs

/-- A 32-byte hash read as a 256-bit big-endian unsigned integer (byte 0 most
significant). -/
def h256_to_nat (h : fbcash_h256_t) : Nat :=
  be_value (List.ofFn h.b)

/-- Byte-wise lexicographic `≤` on two byte strings, most significant byte first. -/
def lex_le : List uint8_t → List uint8_t → Bool
  | x :: xs, y :: ys => if x = y then lex_le xs ys else decide (x < y)
  | _, _ => true

/-- The 32-byte value with every byte `0xFF`. -/
def h256_all_ff : fbcash_h256_t := ⟨fun _ => 255⟩
/-- The 32-byte value with every byte `0x00`. -/
def h256_all_00 : fbcash_h256_t := ⟨fun _ => 0⟩

/-! ## Nodes, DAG items, dataset fill and hashimoto

`internal.h` declares `fbcash_calculate_dag_item`, `fbcash_compute_full_data` and
`fbcash_light_compute_internal`, and `fbcash.h` declares `fbcash_full_compute`; none of
their bodies is among the sources. They are modelled from sections 4.3 to 4.5 of the
specification. What the specification leaves open (the hash primitives, the exact
FNV-style combine and the byte order of the packed mix digest) is a parameter. -/

/-- The type `typedef union node { uint8_t bytes[NODE_WORDS * 4]; uint32_t words[NODE_WORDS];
uint64_t double_words[NODE_WORDS / 2]; } node;` in its view as 16 32-bit words. -/
structure node where
  words : Fin 16 → Nat

/-- The type `typedef struct fbcash_return_value { fbcash_h256_t result; fbcash_h256_t mix_hash;
bool success; } fbcash_return_value_t;` -/
structure fbcash_return_value_t where
  result : fbcash_h256_t
  mix_hash : fbcash_h256_t
  success : Bool

/-- Modelled from the spec: the primitives the specification treats as given and
whose code is not among the sources: the 512-bit hash on a node, the 512-bit hash of
`header_hash || nonce`, the 256-bit hash of `seed || mix_hash`, the FNV-style combine
on 32-bit words, and the packing of 8 words into a 32-byte digest. -/
structure Primitives where
  hash512 : node → node
  hash512_seed : fbcash_h256_t → Nat → node
  hash256 : node → fbcash_h256_t → fbcash_h256_t
  fnv : Nat → Nat → Nat
  pack : (Fin 8 → Nat) → fbcash_h256_t

/-- The node with all words zero. -/
def zero_node : node := ⟨fun _ => 0⟩

/-- Read `cache[i]`. Outside the cache (only possible for an empty cache, where the
C index computation is undefined) the model reads the zero node. -/
def cache_get (cache : List node) (i : Nat) : node :=
  cache.getD i zero_node

/-- Modelled from the spec: one round of section 4.3 step 2, missing from the sources:
"derive a parent index via an FNV-style combine of (node_index XOR round_number) with
the current mix's word at position round_number mod words_per_node, reduced modulo
cache_element_count; then combine the mix element-wise with cache[parent_index] using
the same FNV-style combine on every word". -/
def dag_item_round (P : Primitives) (cache : List node) (node_index i : Nat) (mix : node) :
    node :=
  let parent_index :=
    P.fnv (Nat.xor node_index i) (mix.words ⟨i % 16, Nat.mod_lt i (by decide)⟩) % cache.length
  let parent := cache_get cache parent_index
  ⟨fun w => P.fnv (mix.words w) (parent.words w)⟩

/-- Modelled from the spec: the round loop of section 4.3 step 2, from round `i`, for
as many rounds as the first argument says. -/
def dag_item_loop (P : Primitives) (cache : List node) (node_index : Nat) :
    Nat → Nat → node → node
  | 0, _, mix => mix
  | fuel + 1, i, mix =>
    dag_item_loop P cache node_index fuel (i + 1) (dag_item_round P cache node_index i mix)

/-- Modelled from the spec: `fbcash_calculate_dag_item(ret, node_index, cache)`,
declared in `internal.h` without a body (section 4.3): the mix starts as
`cache[node_index mod cache_element_count]` with its first word XORed with
`node_index`, hashed; then `FBCASH_DATASET_PARENTS` = 256 rounds; then hashed again.
The parameter is declared `uint32_t node_index`, hence the reduction modulo `2 ^ 32`. -/
def fbcash_calculate_dag_item (P : Primitives) (cache : List node) (node_index : Nat) : node :=
  let idx := node_index % 2 ^ 32
  let init := cache_get cache (idx % cache.length)
  let seeded : node :=
    ⟨fun w => if w.val = 0 then Nat.xor (init.words w) idx else init.words w⟩
  let mix := P.hash512 seeded
  P.hash512 (dag_item_loop P cache idx FBCASH_DATASET_PARENTS 0 mix)

/-- Modelled from the spec: whether the progress callback (`fbcash_callback_t`, a
nullable `int(*)(unsigned)`) asks to stop: "a non-zero return value is a cooperative
cancellation signal". -/
def callback_cancels (callback : Option (Nat → Int)) (percent : Nat) : Bool :=
  match callback with
  | none => false
  | some cb => decide (cb percent ≠ 0)

/-- Modelled from the spec: the fill loop of section 4.4, missing from the sources:
"invoking DatasetItemDeriver for every index in [0, element_count) and storing results
contiguously"; the callback is asked before each item with the percentage done so
far, and a cancellation discards the dataset. -/
def full_data_loop (P : Primitives) (cache : List node) (callback : Option (Nat → Int))
    (max_n : Nat) : Nat → Nat → List node → Option (List node)
  | 0, _, mem => some mem
  | fuel + 1, n, mem =>
    if callback_cancels callback (n * 100 / max_n) then none
    else full_data_loop P cache callback max_n fuel (n + 1)
      (mem ++ [fbcash_calculate_dag_item P cache n])

/-- Modelled from the spec: `fbcash_compute_full_data(mem, full_size, light, callback)`,
declared in `internal.h` without a body: `none` ("false for invalid parameters") for a
size that is zero or not a multiple of 128 and on cancellation, otherwise the
`full_size / 64` nodes of the dataset. -/
def fbcash_compute_full_data (P : Primitives) (cache : List node) (full_size : Nat)
    (callback : Option (Nat → Int)) : Option (List node) :=
  if full_size = 0 ∨ full_size % FBCASH_MIX_BYTES ≠ 0 then none
  else
    full_data_loop P cache callback (full_size / FBCASH_HASH_BYTES)
      (full_size / FBCASH_HASH_BYTES) 0 []

/-- The mix buffer of hashimoto: `MIX_NODES` = 2 nodes, as `MIX_WORDS` = 32 words. -/
abbrev mix_t := Fin 32 → Nat

/-- Modelled from the spec: one access round of section 4.5 step 2, missing from the
sources: "derive a page index p from an FNV-style combine of the round counter with a
word of the current mix, reduced modulo (dataset_size_bytes / 128); fetch the two
Nodes at positions 2p and 2p+1 via the accessor; combine each element-wise into the
mix via the FNV-style combine". The word is the one at `round mod MIX_WORDS`. A node
the accessor cannot serve makes the round fail. -/
def hashimoto_round (P : Primitives) (accessor : Nat → Option node) (num_pages : Nat)
    (i : Nat) (mix : mix_t) : Option mix_t :=
  let p := P.fnv i (mix ⟨i % 32, Nat.mod_lt i (by decide)⟩) % num_pages
  match accessor (2 * p), accessor (2 * p + 1) with
  | some n0, some n1 =>
    some (fun w =>
      P.fnv (mix w)
        (if h : w.val < 16 then n0.words ⟨w.val, h⟩
         else n1.words ⟨w.val - 16, by have := w.isLt; omega⟩))
  | _, _ => none

/-- Modelled from the spec: the access loop of section 4.5 step 2, from round `i`, for
as many rounds as the first argument says. -/
def hashimoto_loop (P : Primitives) (accessor : Nat → Option node) (num_pages : Nat) :
    Nat → Nat → mix_t → Option mix_t
  | 0, _, mix => some mix
  | fuel + 1, i, mix =>
    match hashimoto_round P accessor num_pages i mix with
    | none => none
    | some mix1 => hashimoto_loop P accessor num_pages fuel (i + 1) mix1

/-- Modelled from the spec: section 4.5 step 3, missing from the sources: "compress the
mix by combining each group of 4 consecutive 32-bit words via the FNV-style combine
into a single 32-bit word". -/
def compress_mix (P : Primitives) (mix : mix_t) : Fin 8 → Nat :=
  fun k =>
    P.fnv (P.fnv (P.fnv (mix ⟨4 * k.val, by have := k.isLt; omega⟩)
      (mix ⟨4 * k.val + 1, by have := k.isLt; omega⟩))
      (mix ⟨4 * k.val + 2, by have := k.isLt; omega⟩))
      (mix ⟨4 * k.val + 3, by have := k.isLt; omega⟩)

/-- The result of a failed hashimoto call: `success` is false; the two digests, which
the specification leaves unspecified in that case, are zero. -/
def hashimoto_failure : fbcash_return_value_t :=
  ⟨⟨fun _ => 0⟩, ⟨fun _ => 0⟩, false⟩

/-- Modelled from the spec: the hashimoto computation of section 4.5 over a node
accessor, missing from the sources: seed `hash512(header_hash || nonce)` replicated
over the mix, `FBCASH_ACCESSES` = 64 access rounds, compression to `mix_hash`,
`result = hash256(seed || mix_hash)`; "success is false only if dataset_size_bytes is
zero, not a multiple of 128, or the accessor cannot serve the requested range". -/
def hashimoto (P : Primitives) (accessor : Nat → Option node) (full_size : Nat)
    (header_hash : fbcash_h256_t) (nonce : Nat) : fbcash_return_value_t :=
  if full_size = 0 ∨ full_size % FBCASH_MIX_BYTES ≠ 0 then hashimoto_failure
  else
    let s := P.hash512_seed header_hash nonce
    let mix0 : mix_t := fun w => s.words ⟨w.val % 16, Nat.mod_lt _ (by decide)⟩
    match hashimoto_loop P accessor (full_size / FBCASH_MIX_BYTES) FBCASH_ACCESSES 0 mix0 with
    | none => hashimoto_failure
    | some mix =>
      let mix_hash := P.pack (compress_mix P mix)
      ⟨P.hash256 s mix_hash, mix_hash, true⟩

/-- Modelled from the spec: `fbcash_light_compute_internal(light, full_size, header_hash,
nonce)`, declared in `internal.h` without a body: hashimoto in light mode, each
accessed node computed by `fbcash_calculate_dag_item` from the cache. -/
def fbcash_light_compute_internal (P : Primitives) (cache : List node) (full_size : Nat)
    (header_hash : fbcash_h256_t) (nonce : Nat) : fbcash_return_value_t :=
  hashimoto P (fun i => some (fbcash_calculate_dag_item P cache i)) full_size header_hash nonce

/-- Modelled from the spec: `fbcash_full_compute(full, header_hash, nonce)`, declared in
`fbcash.h` without a body: hashimoto in full mode, each accessed node read from
`full->data`, with `full->file_size` as the dataset size. -/
def fbcash_full_compute (P : Primitives) (data : List node) (file_size : Nat)
    (header_hash : fbcash_h256_t) (nonce : Nat) : fbcash_return_value_t :=
  hashimoto P (fun i => data[i]?) file_size header_hash nonce

/-- A concrete choice of primitives for the worked examples: identity hashes, the
combine `(a * 16777619) xor b` on 32 bits, and a packing that keeps the low byte of
word `i / 4`. -/
def example_primitives : Primitives where
  hash512 := fun n => n
  hash512_seed := fun h nonce => ⟨fun w => (h.b ⟨w.val, by have := w.isLt; omega⟩).val + nonce⟩
  hash256 := fun _ m => m
  fnv := fun a b => Nat.xor (a * 16777619 % 2 ^ 32) b
  pack := fun ws => ⟨fun i => ⟨ws ⟨i.val / 4, by have := i.isLt; omega⟩ % 256, Nat.mod_lt _ (by decide)⟩⟩

/-! ## Helper lemmas for the difficulty check -/

theorem be_value_lt (xs : List uint8_t) : be_value xs < 256 ^ xs.length := by
  induction xs with
  | nil => simp [be_value]
  | cons x xs ih =>
    have hx : x.val + 1 ≤ 256 := x.isLt
    have : (x.val + 1) * 256 ^ xs.length ≤ 256 * 256 ^ xs.length :=
      Nat.mul_le_mul_right _ hx
    simp only [be_value, List.length_cons, pow_succ]
    nlinarith

theorem lex_le_iff_be_value :
    ∀ (xs ys : List uint8_t), xs.length = ys.length →
      (lex_le xs ys = true ↔ be_value xs ≤ be_value ys)
  | [], [], _ => by simp [lex_le, be_value]
  | [], _ :: _, h => by simp at h
  | _ :: _, [], h => by simp at h
  | x :: xs, y :: ys, h => by
    have hl : xs.length = ys.length := by simpa using h
    have ih := lex_le_iff_be_value xs ys hl
    have hxs := be_value_lt xs
    have hys := be_value_lt ys
    simp only [lex_le, be_value]
    rw [hl] at hxs ⊢
    generalize 256 ^ ys.length = P at hxs hys ⊢
    by_cases hxy : x = y
    · subst hxy
      simp only [if_true, ih]
      omega
    · simp only [hxy, if_false, decide_eq_true_eq]
      have hv : x.val ≠ y.val := fun hv => hxy (Fin.ext hv)
      constructor
      · intro hlt
        have h1 : x.val + 1 ≤ y.val := hlt
        have h2 : (x.val + 1) * P ≤ y.val * P := Nat.mul_le_mul_right _ h1
        nlinarith
      · intro hle
        by_contra hnlt
        have h1 : y.val + 1 ≤ x.val := by
          have : ¬ x.val < y.val := hnlt
          omega
        have h2 : (y.val + 1) * P ≤ x.val * P := Nat.mul_le_mul_right _ h1
        nlinarith

theorem lex_le_antisymm :
    ∀ (xs ys : List uint8_t), xs.length = ys.length →
      lex_le xs ys = true → lex_le ys xs = true → xs = ys
  | [], [], _, _, _ => rfl
  | [], _ :: _, h, _, _ => by simp at h
  | _ :: _, [], h, _, _ => by simp at h
  | x :: xs, y :: ys, h, h1, h2 => by
    have hl : xs.length = ys.length := by simpa using h
    by_cases hxy : x = y
    · subst hxy
      simp only [lex_le, if_true] at h1 h2
      rw [lex_le_antisymm xs ys hl h1 h2]
    · have hyx : ¬ y = x := fun e => hxy e.symm
      simp only [lex_le, hxy, hyx, if_false, decide_eq_true_eq] at h1 h2
      exact absurd h1 (lt_asymm h2)

theorem drop_ofFn_cons {n : Nat} (f : Fin n → uint8_t) (i : Nat) (h : i < n) :
    (List.ofFn f).drop i = f ⟨i, h⟩ :: (List.ofFn f).drop (i + 1) := by
  have hlen : i < (List.ofFn f).length := by rw [List.length_ofFn]; exact h
  rw [List.drop_eq_getElem_cons hlen, List.getElem_ofFn]

theorem check_difficulty_loop_eq_lex (hash boundary : fbcash_h256_t) :
    ∀ (fuel i : Nat), fuel + i = 32 →
      check_difficulty_loop hash boundary fuel i
        = lex_le ((List.ofFn hash.b).drop i) ((List.ofFn boundary.b).drop i)
  | 0, i, h => by
    have hi : i = 32 := by omega
    subst hi
    have h1 : (List.ofFn hash.b).drop 32 = [] :=
      List.drop_eq_nil_of_le (by rw [List.length_ofFn])
    rw [h1]
    simp only [check_difficulty_loop, lex_le]
  | fuel + 1, i, h => by
    have hi : i < 32 := by omega
    rw [drop_ofFn_cons hash.b i hi, drop_ofFn_cons boundary.b i hi]
    simp only [check_difficulty_loop, hi, dif_pos, fbcash_h256_get, lex_le]
    rw [check_difficulty_loop_eq_lex hash boundary fuel (i + 1) (by omega)]

theorem check_difficulty_eq_lex (hash boundary : fbcash_h256_t) :
    fbcash_check_difficulty hash boundary
      = lex_le (List.ofFn hash.b) (List.ofFn boundary.b) := by
  have := check_difficulty_loop_eq_lex hash boundary 32 0 rfl
  simpa [fbcash_check_difficulty] using this

theorem check_difficulty_iff_le (hash boundary : fbcash_h256_t) :
    fbcash_check_difficulty hash boundary = true ↔ h256_to_nat hash ≤ h256_to_nat boundary := by
  rw [check_difficulty_eq_lex]
  exact lex_le_iff_be_value _ _ (by rw [List.length_ofFn, List.length_ofFn])

theorem h256_ext_of_ofFn {a b : fbcash_h256_t} (h : List.ofFn a.b = List.ofFn b.b) : a = b := by
  cases a; cases b
  simp only [fbcash_h256_t.mk.injEq]
  exact List.ofFn_injective h

theorem check_difficulty_loop_of_pointwise_le (hash boundary : fbcash_h256_t)
    (hle : ∀ j : Fin 32, hash.b j ≤ boundary.b j) :
    ∀ (fuel i : Nat), check_difficulty_loop hash boundary fuel i = true
  | 0, _ => rfl
  | fuel + 1, i => by
    unfold check_difficulty_loop
    by_cases hi : i < 32
    · simp only [hi, dif_pos, fbcash_h256_get]
      by_cases he : hash.b ⟨i, hi⟩ = boundary.b ⟨i, hi⟩
      · simp only [he, if_true]
        exact check_difficulty_loop_of_pointwise_le hash boundary hle fuel (i + 1)
      · simp only [he, if_false, decide_eq_true_eq]
        exact lt_of_le_of_ne (hle _) he
    · simp only [hi, dif_neg, not_false_eq_true]

theorem check_difficulty_loop_first_diff (hash boundary : fbcash_h256_t) (k : Fin 32)
    (heq : ∀ j : Fin 32, j < k → hash.b j = boundary.b j)
    (hne : hash.b k ≠ boundary.b k) :
    ∀ (fuel i : Nat), fuel + i = 32 → i ≤ k.val →
      check_difficulty_loop hash boundary fuel i = decide (hash.b k < boundary.b k)
  | 0, i, h, hik => by
    have := k.isLt
    omega
  | fuel + 1, i, h, hik => by
    have hi : i < 32 := lt_of_le_of_lt hik k.isLt
    unfold check_difficulty_loop
    simp only [hi, dif_pos, fbcash_h256_get]
    by_cases hk : i = k.val
    · have hfin : (⟨i, hi⟩ : Fin 32) = k := Fin.ext hk
      rw [hfin]
      simp only [hne, if_false]
    · have hlt : (⟨i, hi⟩ : Fin 32) < k := by
        show i < k.val
        omega
      simp only [heq _ hlt, if_true]
      exact check_difficulty_loop_first_diff hash boundary k heq hne fuel (i + 1)
        (by omega) (by omega)

theorem check_difficulty_antisymm (a b : fbcash_h256_t)
    (hab : fbcash_check_difficulty a b = true) (hba : fbcash_check_difficulty b a = true) :
    a = b := by
  rw [check_difficulty_eq_lex] at hab hba
  exact h256_ext_of_ofFn
    (lex_le_antisymm _ _ (by rw [List.length_ofFn, List.length_ofFn]) hab hba)

theorem check_difficulty_refl (a : fbcash_h256_t) : fbcash_check_difficulty a a = true :=
  check_difficulty_loop_of_pointwise_le a a (fun _ => le_refl _) 32 0

/-! ## The difficulty check: claims -/

/-- C1: `fbcash_check_difficulty hash boundary` is true exactly when `hash`, read as a
256-bit big-endian unsigned integer (byte 0 most significant), is less than or equal
to `boundary` read the same way. -/
theorem check_difficulty_iff_be_le (hash boundary : fbcash_h256_t) :
    fbcash_check_difficulty hash boundary = true
      ↔ h256_to_nat hash ≤ h256_to_nat boundary :=
  check_difficulty_iff_le hash boundary

/-- C2: the first differing byte decides: if bytes `0..k-1` of `hash` and `boundary`
agree and byte `k` differs, the result is `hash[k] < boundary[k]` whatever the later
bytes are, and the comparison in the other direction is `boundary[k] < hash[k]`
(for `k = 0`: the smaller first byte is accepted against the other, the larger one is
rejected). -/
theorem check_difficulty_first_differing_byte (hash boundary : fbcash_h256_t) (k : Fin 32)
    (heq : ∀ j : Fin 32, j < k → hash.b j = boundary.b j)
    (hne : hash.b k ≠ boundary.b k) :
    fbcash_check_difficulty hash boundary = decide (hash.b k < boundary.b k) ∧
    fbcash_check_difficulty boundary hash = decide (boundary.b k < hash.b k) :=
  ⟨check_difficulty_loop_first_diff hash boundary k heq hne 32 0 rfl (Nat.zero_le _),
   check_difficulty_loop_first_diff boundary hash k (fun j hj => (heq j hj).symm)
     (fun e => hne e.symm) 32 0 rfl (Nat.zero_le _)⟩

/-- Witness for C2 at `k = 0`: first bytes `1` and `2`, the remaining bytes of the
smaller one all `0xFF` and of the larger one all `0x00`. -/
theorem check_difficulty_first_differing_byte_witness :
    (fbcash_check_difficulty ⟨fun i => if i.val = 0 then 1 else 255⟩
        ⟨fun i => if i.val = 0 then 2 else 0⟩ = true) ∧
    (fbcash_check_difficulty ⟨fun i => if i.val = 0 then 2 else 0⟩
        ⟨fun i => if i.val = 0 then 1 else 255⟩ = false) := by
  have h := check_difficulty_first_differing_byte
    ⟨fun i => if i.val = 0 then 1 else 255⟩ ⟨fun i => if i.val = 0 then 2 else 0⟩ 0
    (fun j hj => absurd hj (Nat.not_lt_zero _)) (by decide)
  exact ⟨h.1.trans (by decide), h.2.trans (by decide)⟩

/-- C3: a boundary whose 32 bytes are all `0xFF` accepts every hash. -/
theorem check_difficulty_all_ff (hash : fbcash_h256_t) :
    fbcash_check_difficulty hash h256_all_ff = true :=
  check_difficulty_loop_of_pointwise_le hash h256_all_ff
    (fun j => Nat.le_of_lt_succ (hash.b j).isLt) 32 0

/-- C4: a boundary whose 32 bytes are all `0x00` accepts exactly the all-zero hash. -/
theorem check_difficulty_all_00 (hash : fbcash_h256_t) :
    fbcash_check_difficulty hash h256_all_00 = true ↔ ∀ i : Fin 32, hash.b i = 0 := by
  constructor
  · intro h i
    have hz : fbcash_check_difficulty h256_all_00 hash = true :=
      check_difficulty_loop_of_pointwise_le h256_all_00 hash (fun j => Nat.zero_le _) 32 0
    have := check_difficulty_antisymm hash h256_all_00 h hz
    rw [this]
    rfl
  · intro h
    exact check_difficulty_loop_of_pointwise_le hash h256_all_00
      (fun j => by rw [h j]; exact le_refl _) 32 0

/-- C9: the check is transitive: a hash accepted by `b1` is accepted by every boundary
`b2` that accepts `b1`. -/
theorem check_difficulty_trans (h b1 b2 : fbcash_h256_t)
    (h1 : fbcash_check_difficulty h b1 = true) (h2 : fbcash_check_difficulty b1 b2 = true) :
    fbcash_check_difficulty h b2 = true := by
  rw [check_difficulty_iff_le] at h1 h2 ⊢
  exact le_trans h1 h2

/-- Witness for C9: hash `00 07 00..`, boundaries `00 09 00..` and `01 00 00..`: the two
premises hold there, and so does the conclusion. -/
theorem check_difficulty_trans_witness :
    fbcash_check_difficulty ⟨fun i => if i.val = 1 then 7 else 0⟩
      ⟨fun i => if i.val = 1 then 9 else 0⟩ = true ∧
    fbcash_check_difficulty ⟨fun i => if i.val = 1 then 9 else 0⟩
      ⟨fun i => if i.val = 0 then 1 else 0⟩ = true ∧
    fbcash_check_difficulty ⟨fun i => if i.val = 1 then 7 else 0⟩
      ⟨fun i => if i.val = 0 then 1 else 0⟩ = true :=
  ⟨by decide, by decide,
   check_difficulty_trans ⟨fun i => if i.val = 1 then 7 else 0⟩
    ⟨fun i => if i.val = 1 then 9 else 0⟩ ⟨fun i => if i.val = 0 then 1 else 0⟩
    (by decide) (by decide)⟩

/-- C10: the check is total and antisymmetric: for all `a`, `b` at least one of
`check a b`, `check b a` holds, and both hold exactly when `a` and `b` are equal byte
for byte. -/
theorem check_difficulty_total_antisymm (a b : fbcash_h256_t) :
    (fbcash_check_difficulty a b = true ∨ fbcash_check_difficulty b a = true) ∧
    ((fbcash_check_difficulty a b = true ∧ fbcash_check_difficulty b a = true)
      ↔ ∀ i : Fin 32, a.b i = b.b i) := by
  refine ⟨?_, ?_, ?_⟩
  · rw [check_difficulty_iff_le, check_difficulty_iff_le]
    exact le_total _ _
  · rintro ⟨hab, hba⟩ i
    rw [check_difficulty_antisymm a b hab hba]
  · intro h
    have hab : a = b := by
      cases a; cases b
      simp only [fbcash_h256_t.mk.injEq]
      exact funext h
    subst hab
    exact ⟨check_difficulty_refl a, check_difficulty_refl a⟩

/-! ## Helper lemmas for light/full equivalence -/

theorem node_and_mix_word_counts : NODE_WORDS = 16 ∧ MIX_WORDS = 32 ∧ MIX_NODES = 2 := by
  decide

theorem hashimoto_round_congr (P : Primitives) (acc1 acc2 : Nat → Option node)
    (num_pages : Nat) (hnp : 0 < num_pages)
    (hacc : ∀ i, i < 2 * num_pages → acc1 i = acc2 i) (i : Nat) (mix : mix_t) :
    hashimoto_round P acc1 num_pages i mix = hashimoto_round P acc2 num_pages i mix := by
  unfold hashimoto_round
  have hp : P.fnv i (mix ⟨i % 32, Nat.mod_lt i (by decide)⟩) % num_pages < num_pages :=
    Nat.mod_lt _ hnp
  simp only []
  rw [hacc _ (by omega), hacc _ (by omega)]

theorem hashimoto_loop_congr (P : Primitives) (acc1 acc2 : Nat → Option node)
    (num_pages : Nat) (hnp : 0 < num_pages)
    (hacc : ∀ i, i < 2 * num_pages → acc1 i = acc2 i) :
    ∀ (fuel i : Nat) (mix : mix_t),
      hashimoto_loop P acc1 num_pages fuel i mix = hashimoto_loop P acc2 num_pages fuel i mix
  | 0, _, _ => rfl
  | fuel + 1, i, mix => by
    simp only [hashimoto_loop, hashimoto_round_congr P acc1 acc2 num_pages hnp hacc i mix]
    cases hashimoto_round P acc2 num_pages i mix with
    | none => rfl
    | some m => exact hashimoto_loop_congr P acc1 acc2 num_pages hnp hacc fuel (i + 1) m

theorem hashimoto_congr (P : Primitives) (acc1 acc2 : Nat → Option node) (full_size : Nat)
    (hacc : ∀ i, i < 2 * (full_size / FBCASH_MIX_BYTES) → acc1 i = acc2 i)
    (header_hash : fbcash_h256_t) (nonce : Nat) :
    hashimoto P acc1 full_size header_hash nonce
      = hashimoto P acc2 full_size header_hash nonce := by
  unfold hashimoto
  by_cases hbad : full_size = 0 ∨ full_size % FBCASH_MIX_BYTES ≠ 0
  · simp only [hbad, if_true]
  · simp only [hbad, if_false]
    have hnp : 0 < full_size / FBCASH_MIX_BYTES := by
      have h1 : full_size ≠ 0 := fun h => hbad (Or.inl h)
      have h2 : full_size % FBCASH_MIX_BYTES = 0 := by
        by_contra h; exact hbad (Or.inr h)
      simp only [FBCASH_MIX_BYTES] at h2 ⊢
      omega
    rw [hashimoto_loop_congr P acc1 acc2 _ hnp hacc]

theorem hashimoto_loop_light_some (P : Primitives) (f : Nat → node) (num_pages : Nat) :
    ∀ (fuel i : Nat) (mix : mix_t),
      ∃ m, hashimoto_loop P (fun j => some (f j)) num_pages fuel i mix = some m
  | 0, _, mix => ⟨mix, rfl⟩
  | fuel + 1, i, mix => by
    simp only [hashimoto_loop, hashimoto_round]
    exact hashimoto_loop_light_some P f num_pages fuel (i + 1) _

theorem full_data_loop_spec (P : Primitives) (cache : List node)
    (callback : Option (Nat → Int)) (max_n : Nat) :
    ∀ (fuel n : Nat) (mem data : List node),
      mem.length = n →
      (∀ i, i < n → mem[i]? = some (fbcash_calculate_dag_item P cache i)) →
      full_data_loop P cache callback max_n fuel n mem = some data →
      data.length = n + fuel ∧
        ∀ i, i < n + fuel → data[i]? = some (fbcash_calculate_dag_item P cache i)
  | 0, n, mem, data, hlen, hmem, h => by
    simp only [full_data_loop, Option.some.injEq] at h
    subst h
    exact ⟨hlen, hmem⟩
  | fuel + 1, n, mem, data, hlen, hmem, h => by
    unfold full_data_loop at h
    by_cases hc : callback_cancels callback (n * 100 / max_n) = true
    · simp [hc] at h
    · simp only [hc, if_false] at h
      have key := full_data_loop_spec P cache callback max_n fuel (n + 1)
        (mem ++ [fbcash_calculate_dag_item P cache n]) data
        (by simp [hlen])
        (by
          intro i hi
          by_cases hin : i < n
          · rw [List.getElem?_append_left (by omega)]
            exact hmem i hin
          · have hieq : i = n := by omega
            subst hieq
            rw [List.getElem?_append_right (by omega)]
            simp [hlen])
        h
      have e : n + 1 + fuel = n + (fuel + 1) := by omega
      rw [e] at key
      exact key

theorem full_data_loop_total (P : Primitives) (cache : List node) (max_n : Nat) :
    ∀ (fuel n : Nat) (mem : List node),
      ∃ data, full_data_loop P cache none max_n fuel n mem = some data
  | 0, _, mem => ⟨mem, rfl⟩
  | fuel + 1, n, mem => by
    unfold full_data_loop
    simp only [callback_cancels, Bool.false_eq_true, if_false]
    exact full_data_loop_total P cache max_n fuel (n + 1) _

/-! ## Light/full equivalence and size constants: claims -/

/-- C5: light/full equivalence. For every cache, every dataset size that is a non-zero
multiple of 128, every header hash and nonce: hashimoto in full mode, reading the
dataset that `fbcash_compute_full_data` filled from the cache, returns the same
`fbcash_return_value_t` (result, mix_hash and success) as hashimoto in light mode,
whatever the hash primitives and the combine are. The fill does produce a dataset
when it is not cancelled, and the light computation succeeds. -/
theorem light_full_equivalence (P : Primitives) (cache : List node) (full_size : Nat)
    (header_hash : fbcash_h256_t) (nonce : Nat) (callback : Option (Nat → Int))
    (h0 : full_size ≠ 0) (h128 : full_size % 128 = 0) :
    (∀ data, fbcash_compute_full_data P cache full_size callback = some data →
      fbcash_full_compute P data full_size header_hash nonce
        = fbcash_light_compute_internal P cache full_size header_hash nonce) ∧
    (∃ data, fbcash_compute_full_data P cache full_size none = some data) ∧
    (fbcash_light_compute_internal P cache full_size header_hash nonce).success = true := by
  have hbad : ¬ (full_size = 0 ∨ full_size % FBCASH_MIX_BYTES ≠ 0) := by
    rintro (h | h)
    · exact h0 h
    · exact h h128
  refine ⟨?_, ?_, ?_⟩
  · intro data hdata
    simp only [fbcash_compute_full_data, hbad, if_false] at hdata
    have hspec := full_data_loop_spec P cache callback (full_size / FBCASH_HASH_BYTES)
      (full_size / FBCASH_HASH_BYTES) 0 [] data rfl
      (fun i hi => absurd hi (Nat.not_lt_zero _)) hdata
    unfold fbcash_full_compute fbcash_light_compute_internal
    apply hashimoto_congr
    intro i hi
    apply hspec.2 i
    simp only [FBCASH_MIX_BYTES, FBCASH_HASH_BYTES] at hi ⊢
    omega
  · simp only [fbcash_compute_full_data, hbad, if_false]
    exact full_data_loop_total P cache _ _ _ _
  · unfold fbcash_light_compute_internal hashimoto
    simp only [hbad, if_false]
    obtain ⟨m, hm⟩ := hashimoto_loop_light_some P (fbcash_calculate_dag_item P cache)
      (full_size / FBCASH_MIX_BYTES) FBCASH_ACCESSES 0
      (fun w => (P.hash512_seed header_hash nonce).words ⟨w.val % 16, Nat.mod_lt _ (by decide)⟩)
    rw [hm]

/-- Witness for C5: a one-node cache, a dataset of 128 bytes (two nodes), the zero
header hash and nonce 0, with the example primitives. -/
theorem light_full_equivalence_witness :
    ((128 : Nat) ≠ 0 ∧ 128 % 128 = 0) ∧
    (∀ data, fbcash_compute_full_data example_primitives [zero_node] 128 none = some data →
      fbcash_full_compute example_primitives data 128 ⟨fun _ => 0⟩ 0
        = fbcash_light_compute_internal example_primitives [zero_node] 128 ⟨fun _ => 0⟩ 0) ∧
    (∃ data, fbcash_compute_full_data example_primitives [zero_node] 128 none = some data) ∧
    (fbcash_light_compute_internal example_primitives [zero_node] 128 ⟨fun _ => 0⟩ 0).success
      = true :=
  ⟨⟨by decide, by decide⟩,
   light_full_equivalence example_primitives [zero_node] 128 ⟨fun _ => 0⟩ 0 none
    (by decide) (by decide)⟩

/-- C7: three of the four size constants equal the power of two their comment
documents, `FBCASH_CACHE_BYTES_INIT` does not: its comment says `2**24`, its value is
`2 ^ 30`. -/
theorem size_constants_vs_comments :
    FBCASH_DATASET_BYTES_INIT = 2 ^ 30 ∧
    FBCASH_DATASET_BYTES_GROWTH = 2 ^ 23 ∧
    FBCASH_CACHE_BYTES_GROWTH = 2 ^ 17 ∧
    FBCASH_CACHE_BYTES_INIT = 2 ^ 30 ∧
    FBCASH_CACHE_BYTES_INIT ≠ 2 ^ 24 := by
  simp only [FBCASH_DATASET_BYTES_INIT, FBCASH_DATASET_BYTES_GROWTH,
    FBCASH_CACHE_BYTES_GROWTH, FBCASH_CACHE_BYTES_INIT]
  decide

/-- C8 as stated fails: the per-epoch dataset growth is not 8 times the per-epoch
cache growth. -/
theorem dataset_growth_ne_8_cache_growth :
    FBCASH_DATASET_BYTES_GROWTH ≠ 8 * FBCASH_CACHE_BYTES_GROWTH := by
  simp only [FBCASH_DATASET_BYTES_GROWTH, FBCASH_CACHE_BYTES_GROWTH]
  decide

/-- C8, amended: the per-epoch dataset growth is 64 times the per-epoch cache growth:
`FBCASH_DATASET_BYTES_GROWTH = 64 * FBCASH_CACHE_BYTES_GROWTH`. -/
theorem dataset_growth_eq_64_cache_growth :
    FBCASH_DATASET_BYTES_GROWTH = 64 * FBCASH_CACHE_BYTES_GROWTH := by
  simp only [FBCASH_DATASET_BYTES_GROWTH, FBCASH_CACHE_BYTES_GROWTH]

end Fbcash
